import Mathlib

/-!
# Verification of the literate extraction-reconciliation pipeline

A shallow embedding of the core of the `literate` repository:

* `src/models.py` — `Relationship`, `NarrativeObject`, `ObjectCollection`
  (merge / add-or-update / remove semantics, timestamps);
* `src/object_manager.py` — `ObjectManager.replace_object`;
* `src/schema_validator.py` — `SchemaValidator.validate_response` /
  `sanitize_response`;
* `src/narrative_parser.py` — `NarrativeParser.parse_llm_response`,
  `_convert_to_objects`, `_filter_quality_objects`, `validate_relationships`;
* `src/tui_app.py` — the debounce / single-flight orchestrator
  (`_debounced_process_text`, `_retry_narrative_object`), modelled as an
  explicit event-driven state machine.

Python `datetime` timestamps are modelled as `Nat` instants passed
explicitly (`now` / load-time parameters).  Python exceptions are modelled
with `Option` / `Except`.  Python `dict` objects (insertion-ordered, unique
keys) are modelled as association lists; the uniqueness-of-keys and
key-matches-entity-name facts that every Python-reachable collection enjoys
are captured by the `CollWF` predicate.
-/

namespace Literate

/-- Model of `Relationship` from `src/models.py`: a directed edge with `target` and
`description`; equality and hashing are by the `(target, description)` pair,
which coincides with structural equality here. -/
structure Relationship where
  target : String
  description : String
deriving DecidableEq, Repr

/-- Model of `NarrativeObject` from `src/models.py`.  The two `datetime` fields are
modelled as `Nat` instants. -/
structure NarrativeObject where
  name : String
  description : String
  relationships : List Relationship
  first_seen : Nat
  last_updated : Nat
deriving DecidableEq, Repr

/-- Python `set(a) == set(b)` on relationship lists: mutual containment.
(`Relationship.__eq__` is the pair equality modelled by `DecidableEq`.) -/
def relSetEq (a b : List Relationship) : Bool :=
  a.all (fun r => b.contains r) && b.all (fun r => a.contains r)

/-- Constructing a `NarrativeObject` fresh (dataclass defaults): both
timestamps are the construction instant. -/
def NarrativeObject.create (name description : String)
    (relationships : List Relationship) (now : Nat) : NarrativeObject :=
  ⟨name, description, relationships, now, now⟩

/-- Model of `NarrativeObject.update_from` (src/models.py lines 45-73).  Mutation is
modelled by returning the updated object together with the `changed` flag.
A name mismatch raises `ValueError` in Python, modelled as `none`. -/
def NarrativeObject.update_from (self other : NarrativeObject) (now : Nat) :
    Option (NarrativeObject × Bool) :=
  if self.name ≠ other.name then none
  else
    let descStep :=
      if self.description ≠ other.description then (other.description, true)
      else (self.description, false)
    let relStep :=
      if relSetEq self.relationships other.relationships = false then
        (other.relationships, true)
      else (self.relationships, false)
    let changed := descStep.2 || relStep.2
    some ({ self with
              description := descStep.1
              relationships := relStep.1
              last_updated := if changed then now else self.last_updated },
          changed)

/-- The persisted per-entity snapshot shape consumed by
`NarrativeObject.from_dict` (src/models.py lines 88-108): `name`,
`description` and `relationships` are always present, the two timestamp
fields are optional. -/
structure ObjectData where
  name : String
  description : String
  relationships : List Relationship
  first_seen : Option Nat
  last_updated : Option Nat
deriving DecidableEq, Repr

/-- Model of `NarrativeObject.from_dict` (src/models.py lines 88-108): construct with
both timestamps defaulted to the load instant, then overwrite each timestamp
field that is present in the data. -/
def NarrativeObject.from_dict (data : ObjectData) (loadTime : Nat) :
    NarrativeObject :=
  let obj : NarrativeObject :=
    ⟨data.name, data.description, data.relationships, loadTime, loadTime⟩
  let obj :=
    match data.first_seen with
    | some t => { obj with first_seen := t }
    | none => obj
  match data.last_updated with
  | some t => { obj with last_updated := t }
  | none => obj

/-- Model of `ObjectCollection.objects` (src/models.py): a Python dict from name to
entity, modelled as an insertion-ordered association list. -/
abbrev Collection := List (String × NarrativeObject)

/-- Dict lookup `self.objects.get(name)`. -/
def lookupObj (c : Collection) (k : String) : Option NarrativeObject :=
  (c.find? (fun p => p.1 == k)).map (fun p => p.2)

/-- Dict membership `name in self.objects`. -/
def containsName (c : Collection) (k : String) : Bool :=
  c.any (fun p => p.1 == k)

/-- Dict assignment to an existing key: the value is replaced in place,
position preserved. -/
def setObj (c : Collection) (k : String) (o : NarrativeObject) : Collection :=
  c.map (fun p => if p.1 == k then (k, o) else p)

/-- Well-formedness every Python-reachable `ObjectCollection` has: dict keys
are unique, and each stored entity's `name` equals its key. -/
def CollWF (c : Collection) : Prop :=
  (c.map (fun p => p.1)).Nodup ∧ ∀ p ∈ c, p.2.name = p.1

/-- Model of `ObjectCollection.add_or_update` (src/models.py lines 116-130).  `none`
models the `ValueError` that `update_from` would raise on a key whose stored
entity has a mismatched name (impossible for well-formed collections). -/
def add_or_update (c : Collection) (obj : NarrativeObject) (now : Nat) :
    Option (Collection × Bool) :=
  match lookupObj c obj.name with
  | some existing =>
      (existing.update_from obj now).map
        (fun r => (setObj c obj.name r.1, r.2))
  | none => some (c ++ [(obj.name, obj)], true)

/-- Model of `ObjectCollection.remove` (src/models.py lines 132-145): delete the entry
if present, report whether a deletion happened. -/
def removeObj (c : Collection) (k : String) : Collection × Bool :=
  if containsName c k then (c.eraseP (fun p => p.1 == k), true)
  else (c, false)

/-- The stats record returned by `merge_from_list`. -/
structure MergeStats where
  added : Nat
  updated : Nat
  unchanged : Nat
  removed : Nat
deriving DecidableEq, Repr

/-- The add-or-update loop of `ObjectCollection.merge_from_list`
(src/models.py lines 176-183), with `currentNames` the pre-merge key set. -/
def mergeLoop (c : Collection) (objs : List NarrativeObject)
    (currentNames : List String) (now : Nat) :
    Option (Collection × Nat × Nat × Nat) :=
  match objs with
  | [] => some (c, 0, 0, 0)
  | obj :: rest =>
    match add_or_update c obj now with
    | none => none
    | some (c', changed) =>
      match mergeLoop c' rest currentNames now with
      | none => none
      | some (c'', a, u, un) =>
        if changed then
          if currentNames.contains obj.name then some (c'', a, u + 1, un)
          else some (c'', a + 1, u, un)
        else some (c'', a, u, un + 1)

/-- Model of `ObjectCollection.merge_from_list` (src/models.py lines 155-198). -/
def merge_from_list (c : Collection) (new_objects : List NarrativeObject)
    (remove_missing : Bool) (now : Nat) : Option (Collection × MergeStats) :=
  let currentNames := c.map (fun p => p.1)
  let newNames := new_objects.map (fun o => o.name)
  match mergeLoop c new_objects currentNames now with
  | none => none
  | some (c₁, a, u, un) =>
    if remove_missing then
      let removedNames := currentNames.filter (fun n => !(newNames.contains n))
      let final := removedNames.foldl
        (fun (acc : Collection × Nat) n =>
          let step := removeObj acc.1 n
          (step.1, if step.2 then acc.2 + 1 else acc.2))
        (c₁, 0)
      some (final.1, ⟨a, u, un, final.2⟩)
    else some (c₁, ⟨a, u, un, 0⟩)

/-- A single-quote character, for building Python error-message strings. -/
def sq : String := String.singleton (Char.ofNat 39)

/-- The result dict of `ObjectManager.replace_object`. -/
structure ReplaceResult where
  success : Bool
  error : Option String
  total_count : Nat
  stats : MergeStats
deriving DecidableEq, Repr

/-- Model of `ObjectManager.replace_object` (src/object_manager.py lines 200-235):
fail without touching the collection when `old_name` is absent; otherwise
remove the old entry and `add_or_update` the replacement. -/
def replace_object (c : Collection) (old_name : String)
    (new_object : NarrativeObject) (now : Nat) :
    Option (Collection × ReplaceResult) :=
  if containsName c old_name = false then
    some (c, ⟨false, some ("Object " ++ sq ++ old_name ++ sq ++ " not found"),
              c.length, ⟨0, 0, 0, 0⟩⟩)
  else
    let c₁ := (removeObj c old_name).1
    match add_or_update c₁ new_object now with
    | none => none
    | some (c₂, _) => some (c₂, ⟨true, none, c₂.length, ⟨0, 1, 0, 0⟩⟩)

/-!
## JSON-like Python values

`PyVal` models the values `json.loads` can produce (plus `None`), as consumed
by `SchemaValidator` and `NarrativeParser`.
-/

/-- A Python value of JSON-like shape. -/
inductive PyVal where
  | str (s : String)
  | int (n : Int)
  | bool (b : Bool)
  | null
  | list (xs : List PyVal)
  | dict (fields : List (String × PyVal))
deriving Repr

/-- Python `s.strip()`: drop whitespace from both ends.  (Defined over the
character list so that it evaluates by kernel reduction.) -/
def pyTrim (s : String) : String :=
  ⟨((s.data.dropWhile Char.isWhitespace).reverse.dropWhile
      Char.isWhitespace).reverse⟩

/-- Python `s.lower()` (ASCII case folding suffices here). -/
def pyLower (s : String) : String := ⟨s.data.map Char.toLower⟩

/-- Python `s.startswith(t)`. -/
def pyStartsWith (s t : String) : Bool := t.data.isPrefixOf s.data

/-- Python `s.endswith(t)`. -/
def pyEndsWith (s t : String) : Bool := t.data.isSuffixOf s.data

/-- Python `s[n:]`. -/
def pyDrop (s : String) (n : Nat) : String := ⟨s.data.drop n⟩

/-- Python `d.get(k)` on a dict: first binding of the key, if any. -/
def dictGet (fields : List (String × PyVal)) (k : String) : Option PyVal :=
  (fields.find? (fun p => p.1 == k)).map (fun p => p.2)

/-- Python truth of `"name" in obj` together with the string checks of
`SchemaValidator._validate_object`: the field is present, is a string, has a
non-empty `strip()`, and is at most `maxLen` characters. -/
def validStrField (v : Option PyVal) (maxLen : Nat) : Bool :=
  match v with
  | some (.str s) => (pyTrim s).length != 0 && s.length ≤ maxLen
  | _ => false

/-- Model of `SchemaValidator._validate_relationship` (src/schema_validator.py lines
128-152), as the predicate "this relationship contributes no errors". -/
def validRelationship (rel : PyVal) : Bool :=
  match rel with
  | .dict f =>
      validStrField (dictGet f "target") 100 &&
      validStrField (dictGet f "description") 200
  | _ => false

/-- Model of `SchemaValidator._validate_object` (src/schema_validator.py lines
91-126), as the predicate "this object contributes no errors". -/
def validObject (obj : PyVal) : Bool :=
  match obj with
  | .dict f =>
      validStrField (dictGet f "name") 100 &&
      validStrField (dictGet f "description") 500 &&
      (match dictGet f "relationships" with
       | none => true
       | some (.list rels) => rels.all validRelationship
       | some _ => false)
  | _ => false

/-- Model of `SchemaValidator.validate_response` (src/schema_validator.py lines
57-89), as the boolean `is_valid` (the error list is empty exactly when
every check passes). -/
def validateResponse (response_data : PyVal) : Bool :=
  match response_data with
  | .dict f =>
      match dictGet f "objects" with
      | some (.list objs) => objs.all validObject
      | _ => false
  | _ => false

/-- Python `v.strip()`: succeeds on a string, raises `AttributeError`
(modelled as `.error ()`) on any other value. -/
def pyStrip (v : PyVal) : Except Unit String :=
  match v with
  | .str s => .ok (pyTrim s)
  | _ => .error ()

/-- Truncate a string to its first `n` characters (Python `s[:n]`). -/
def strTake (s : String) (n : Nat) : String := ⟨s.data.take n⟩

/-- Model of `SchemaValidator._sanitize_relationship` (src/schema_validator.py lines
222-241).  `rel.get("target", "")` defaults absent keys to `""`, and
`.strip()` is then applied to whatever value came back — non-string values
raise, hence the `Except`. -/
def sanitizeRelationship (rel : PyVal) : Except Unit (Option PyVal) :=
  match rel with
  | .dict f => do
      let target ← pyStrip ((dictGet f "target").getD (.str ""))
      if target = "" || target.length > 100 then return none
      let description ← pyStrip ((dictGet f "description").getD (.str ""))
      if description = "" then return none
      let description :=
        if description.length > 200 then strTake description 197 ++ "..."
        else description
      return some (.dict [("target", .str target),
                          ("description", .str description)])
  | _ => .ok none

/-- The synthesized description of `_sanitize_object`. -/
def synthDescription (name : String) : String :=
  "A " ++ pyLower name ++ " mentioned in the text."

/-- Model of `SchemaValidator._sanitize_object` (src/schema_validator.py lines
184-220). -/
def sanitizeObject (obj : PyVal) : Except Unit (Option PyVal) :=
  match obj with
  | .dict f =>
      match dictGet f "name" with
      | some (.str s) =>
          let name := pyTrim s
          if name = "" || name.length > 100 then .ok none
          else
            let description :=
              match dictGet f "description" with
              | some (.str d) =>
                  if pyTrim d = "" then synthDescription name else pyTrim d
              | _ => synthDescription name
            let description :=
              if description.length > 500 then strTake description 497 ++ "..."
              else description
            do
              let rels ←
                match dictGet f "relationships" with
                | some (.list rs) =>
                    rs.foldlM
                      (fun (acc : List PyVal) r => do
                        match ← sanitizeRelationship r with
                        | some sr => pure (acc ++ [sr])
                        | none => pure acc)
                      []
                | _ => pure []
              return some (.dict [("name", .str name),
                                  ("description", .str description),
                                  ("relationships", .list rels)])
      | _ => .ok none
  | _ => .ok none

/-- Model of `SchemaValidator.sanitize_response` (src/schema_validator.py lines
155-181). -/
def sanitizeResponse (response_data : PyVal) : Except Unit PyVal :=
  match response_data with
  | .dict f =>
      match dictGet f "objects" with
      | some (.list objs) => do
          let sanitized ← objs.foldlM
            (fun (acc : List PyVal) o => do
              match ← sanitizeObject o with
              | some so => pure (acc ++ [so])
              | none => pure acc)
            []
          return .dict [("objects", .list sanitized)]
      | some _ => .ok (.dict [("objects", .list [])])
      | none => .ok (.dict [("objects", .list [])])
  | _ => .ok (.dict [("objects", .list [])])

/-!
## Extraction parser (`src/narrative_parser.py`)
-/

/-- The element-wise Python loop over a list where each step may raise:
collect the results in order, propagating the first exception. -/
def mapExcept {α β : Type} (f : α → Except Unit β) :
    List α → Except Unit (List β)
  | [] => .ok []
  | x :: xs => do
      let y ← f x
      let ys ← mapExcept f xs
      return y :: ys

/-- Read a required string entry of a dict (`obj_data["name"]` etc. in
`_convert_to_objects`).  A missing key raises `KeyError` and a non-dict
container raises `TypeError`; both are modelled as `.error ()`.  A present
non-string value would let Python build an ill-typed `NarrativeObject` whose
string methods fail downstream; it is likewise modelled as `.error ()` and
is unreachable for schema-valid data. -/
def getStrItem (v : PyVal) (k : String) : Except Unit String :=
  match v with
  | .dict f =>
      match dictGet f k with
      | some (.str s) => .ok s
      | _ => .error ()
  | _ => .error ()

/-- The relationship conversion inside `_convert_to_objects`
(src/narrative_parser.py lines 134-139). -/
def convertRelationship (rel_data : PyVal) : Except Unit Relationship := do
  let target ← getStrItem rel_data "target"
  let description ← getStrItem rel_data "description"
  return ⟨target, description⟩

/-- The per-object conversion inside `_convert_to_objects`
(src/narrative_parser.py lines 131-147): relationships first (defaulting the
absent/non-list field to `[]` as `obj_data.get("relationships", [])` does for
absent keys), then the `NarrativeObject` with fresh timestamps. -/
def convertObject (obj_data : PyVal) (now : Nat) :
    Except Unit NarrativeObject := do
  let rels ←
    match obj_data with
    | .dict f =>
        match dictGet f "relationships" with
        | some (.list rs) => mapExcept convertRelationship rs
        | some _ => .error ()
        | none => pure []
    | _ => .error ()
  let name ← getStrItem obj_data "name"
  let description ← getStrItem obj_data "description"
  return NarrativeObject.create name description rels now

/-- Model of `NarrativeParser._convert_to_objects` (src/narrative_parser.py lines
127-149): `response_data.get("objects", [])` then convert each item. -/
def convertToObjects (response_data : PyVal) (now : Nat) :
    Except Unit (List NarrativeObject) :=
  match response_data with
  | .dict f =>
      match dictGet f "objects" with
      | some (.list objs) => mapExcept (fun o => convertObject o now) objs
      | some _ => .error ()
      | none => .ok []
  | _ => .error ()

/-- First character's `isupper()`; Python would raise `IndexError` on an
empty name, which the quality filter's earlier length check rules out. -/
def headIsUpper (s : String) : Bool :=
  match s.data with
  | [] => false
  | c :: _ => c.isUpper

/-- Does `needle` occur as a contiguous block of `hay`? -/
def charsContain (needle hay : List Char) : Bool :=
  match hay with
  | [] => needle.isEmpty
  | _ :: t => needle.isPrefixOf hay || charsContain needle t

/-- Python `needle in hay` substring containment. -/
def strContains (hay needle : String) : Bool :=
  charsContain needle.data hay.data

/-- The skip condition of `_filter_quality_objects`
(src/narrative_parser.py lines 172-177). -/
def qualitySkip (o : NarrativeObject) : Bool :=
  (pyLower o.name == "string" || pyLower o.name == "name" ||
    pyLower o.name == "object") ||
  (pyLower o.description == "string" ||
    pyLower o.description == "description") ||
  (pyTrim o.name).length < 2 ||
  (pyTrim o.description).length < 5

/-- The `is_proper_name` test of `_filter_quality_objects`
(src/narrative_parser.py lines 179-182). -/
def isProperName (o : NarrativeObject) : Bool :=
  headIsUpper o.name &&
  !(pyStartsWith (pyLower o.name) "the ") &&
  !(pyLower o.name == "person" || pyLower o.name == "character" ||
    pyLower o.name == "object")

/-- The concrete-noun keyword list of `_filter_quality_objects`. -/
def qualityKeywords : List String :=
  ["library", "castle", "park", "school", "book", "sword", "map"]

/-- The keep predicate of `_filter_quality_objects`: not skipped, and either
a proper name or containing a keyword. -/
def qualityPred (o : NarrativeObject) : Bool :=
  !qualitySkip o &&
  (isProperName o ||
    qualityKeywords.any (fun w => strContains (pyLower o.name) w))

/-- Model of `NarrativeParser._filter_quality_objects` (src/narrative_parser.py lines
167-188): the loop appends exactly the objects satisfying `qualityPred`. -/
def filterQualityObjects (objects : List NarrativeObject) :
    List NarrativeObject :=
  objects.filter qualityPred

/-- The literal placeholder markers of `_is_placeholder_response`
(src/narrative_parser.py lines 151-165). -/
def placeholderIndicators : List String :=
  ["\"name\": \"string\"",
   "\"description\": \"string\"",
   "ExactNameFromText",
   "Brief description based only on what the text says"]

/-- Model of `NarrativeParser._is_placeholder_response`. -/
def isPlaceholderResponse (response_text : String) : Bool :=
  placeholderIndicators.any (fun ind => strContains response_text ind)

/-- A three-backtick fence marker, built from character codes. -/
def fenceMarker : String := String.mk (List.replicate 3 (Char.ofNat 96))

/-- Model of `NarrativeParser._clean_response_text` (src/narrative_parser.py lines
61-74). -/
def cleanResponseText (response_text : String) : String :=
  let text := pyTrim response_text
  let text :=
    if pyStartsWith text (fenceMarker ++ "json") then pyDrop text 7
    else if pyStartsWith text fenceMarker then pyDrop text 3
    else text
  let text :=
    if pyEndsWith text fenceMarker then strTake text (text.length - 3)
    else text
  pyTrim text

/-- Model of `NarrativeParser.validate_relationships` (src/narrative_parser.py lines
190-212): compute the name set of the input list, then restrict every
entity's relationship list to targets in that set. -/
def validateRelationships (objects : List NarrativeObject) :
    List NarrativeObject :=
  let object_names := objects.map (fun o => o.name)
  objects.map (fun o =>
    { o with relationships :=
        o.relationships.filter (fun r => object_names.contains r.target) })

/-!
## Serialization of a payload

The round-trip claim speaks of parsing the *serialized text* of a JSON
payload.  `serializePyVal` renders a `PyVal` the way Python's `json.dumps`
does with default separators (`", "` and `": "`); the payloads in this
development contain no characters needing escapes.  By construction the
rendering parses back to the same value, which is how the `json.loads` step
of `parse_llm_response` is discharged in `parseSerializedPayload` below.
-/

/-- Wrap a string in double quotes (escape-free rendering). -/
def quoteStr (s : String) : String := "\"" ++ s ++ "\""

mutual

/-- Model of `json.dumps`-style rendering of a `PyVal`. -/
def serializePyVal : PyVal → String
  | .str s => quoteStr s
  | .int n => toString n
  | .bool b => if b then "true" else "false"
  | .null => "null"
  | .list xs => "[" ++ String.intercalate ", " (serializeList xs) ++ "]"
  | .dict f =>
      "\x7b" ++ String.intercalate ", " (serializePairs f) ++ "\x7d"

/-- Render each element of a list. -/
def serializeList : List PyVal → List String
  | [] => []
  | x :: xs => serializePyVal x :: serializeList xs

/-- Render each key-value pair of a dict. -/
def serializePairs : List (String × PyVal) → List String
  | [] => []
  | (k, v) :: xs => (quoteStr k ++ ": " ++ serializePyVal v) :: serializePairs xs

end

/-- Model of `NarrativeParser.parse_llm_response` (src/narrative_parser.py lines
16-59) applied to the serialized text of a JSON payload `d`.  The empty-text
and salvage branches are unreachable for serialized payloads (the rendering
is non-empty and parses back to `d`); the `json.loads` step therefore yields
`d` itself.  A validation failure routes the data through
`sanitizeResponse`, whose exception propagates, as does any conversion
error. -/
def parseSerializedPayload (d : PyVal) (now : Nat) :
    Except Unit (List NarrativeObject) :=
  let text := serializePyVal d
  if pyTrim text = "" then .ok []
  else
    let cleaned := cleanResponseText text
    if isPlaceholderResponse cleaned then .ok []
    else do
      let data ← if validateResponse d then pure d else sanitizeResponse d
      let objs ← convertToObjects data now
      return filterQualityObjects objs

/-!
## Update orchestrator (`src/tui_app.py`)

The debounce / single-flight logic of `LiterateApp` is modelled as an
event-driven state machine over the cooperative asyncio scheduler:

* `on_text_changed` (lines 553-586): cancels the task stored in
  `self.debounce_task` (whatever phase it is in — a cancelled extracting
  task runs its `finally`, clearing `is_processing`) and schedules a fresh
  debounce wait;
* `_debounced_process_text` (lines 588-618): after the sleep, if
  `is_processing` is set it reports "already processing" and returns — but
  the `return` still passes through the function's `finally` block (lines
  616-618), which sets `is_processing = False` unconditionally; otherwise it
  sets `is_processing = True` and performs the extraction, and the `finally`
  clears the flag when the extraction finishes;
* `_retry_narrative_object` (lines 293-335): returns with a warning when
  `is_processing` is set (this early return is *before* its `try`, so it
  does not touch the flag); otherwise sets `is_processing = True`, runs the
  correction, and clears the flag in its `finally`.

Each state-machine event is one atomic scheduler step (there is no `await`
between the `is_processing` check and the assignment that sets it).
-/

/-- Phase of the task currently referenced by `self.debounce_task`. -/
inductive DebPhase where
  | waiting
  | extracting
deriving DecidableEq, Repr

/-- Orchestrator state: the `is_processing` flag, the live debounce task (if
any) with its phase, whether a retry correction is in flight, and how many
"already processing" warnings have been reported. -/
structure OrchState where
  processing : Bool
  debounce : Option DebPhase
  retryBusy : Bool
  busyReports : Nat
deriving DecidableEq, Repr

/-- Scheduler events driving the orchestrator. -/
inductive OrchEvent where
  | textChanged
  | elapse
  | finishExtract
  | retryRequest
  | finishRetry
deriving DecidableEq, Repr

/-- The initial orchestrator state. -/
def orchInit : OrchState := ⟨false, none, false, 0⟩

/-- One atomic scheduler step of the orchestrator. -/
def orchStep (s : OrchState) (e : OrchEvent) : OrchState :=
  match e with
  | .textChanged =>
      -- on_text_changed: cancel self.debounce_task, then schedule a new
      -- debounce wait.  Cancelling an extracting task aborts its awaited
      -- call and its finally clears is_processing.
      let s :=
        match s.debounce with
        | some .extracting => { s with processing := false, debounce := none }
        | _ => { s with debounce := none }
      { s with debounce := some .waiting }
  | .elapse =>
      -- _debounced_process_text resumes after its sleep.
      match s.debounce with
      | some .waiting =>
          if s.processing then
            -- busy branch: warn and return — the return still runs the
            -- finally block, which sets is_processing = False.
            { s with debounce := none, busyReports := s.busyReports + 1,
                     processing := false }
          else
            { s with debounce := some .extracting, processing := true }
      | _ => s
  | .finishExtract =>
      -- the debounce-initiated extraction completes; finally clears the flag.
      match s.debounce with
      | some .extracting => { s with debounce := none, processing := false }
      | _ => s
  | .retryRequest =>
      -- _retry_narrative_object: guarded early return (no flag change) when
      -- busy, otherwise take the flag and start the correction call.
      if s.processing then { s with busyReports := s.busyReports + 1 }
      else { s with retryBusy := true, processing := true }
  | .finishRetry =>
      -- the correction call completes; finally clears the flag.
      if s.retryBusy then { s with retryBusy := false, processing := false }
      else s

/-- Run the orchestrator from the initial state over an event trace. -/
def orchRun (events : List OrchEvent) : OrchState :=
  events.foldl orchStep orchInit

/-- Number of extraction/correction calls currently in flight. -/
def inFlight (s : OrchState) : Nat :=
  (match s.debounce with
   | some .extracting => 1
   | _ => 0) +
  (if s.retryBusy then 1 else 0)

/-!
## Payload field extraction (for stating the round-trip claim)

These read the raw strings of a payload directly, so that "round-trips
field values exactly" can be stated as an equality between the conversion
result and a verbatim extraction from the payload.
-/

/-- The raw object dicts of a payload (`response_data["objects"]`). -/
def payloadObjList (d : PyVal) : List PyVal :=
  match d with
  | .dict f =>
      match dictGet f "objects" with
      | some (.list l) => l
      | _ => []
  | _ => []

/-- The raw string stored under key `k` of an object dict (defaulting to
`""` away from the shapes the schema allows). -/
def objStrField (o : PyVal) (k : String) : String :=
  match o with
  | .dict f =>
      match dictGet f k with
      | some (.str s) => s
      | _ => ""
  | _ => ""

/-- The relationship pairs of an object dict, verbatim. -/
def objRelPairs (o : PyVal) : List Relationship :=
  match o with
  | .dict f =>
      match dictGet f "relationships" with
      | some (.list rs) =>
          rs.map (fun r => ⟨objStrField r "target", objStrField r "description"⟩)
      | _ => []
  | _ => []

/-- The entity an object dict should convert to: all fields verbatim. -/
def entityOfObj (now : Nat) (o : PyVal) : NarrativeObject :=
  ⟨objStrField o "name", objStrField o "description", objRelPairs o, now, now⟩

/-- The timestamp invariant of the spec: `first_seen <= last_updated`. -/
abbrev TimestampInv (o : NarrativeObject) : Prop :=
  o.first_seen ≤ o.last_updated

/-- Content agreement after a merge: stored entity has the incoming name
and description, and the same relationship set. -/
def ContentEq (st obj : NarrativeObject) : Prop :=
  st.name = obj.name ∧ st.description = obj.description ∧
    relSetEq st.relationships obj.relationships = true

/-!
## Concrete values used by counterexamples and failing-input evaluations
-/

/-- A list whose two entries share the name `"A"` with differing
descriptions — the duplicate-name input refuting idempotent re-merge
stats. -/
def dupNameList : List NarrativeObject :=
  [⟨"A", "x", [], 0, 0⟩, ⟨"A", "y", [], 0, 0⟩]

/-- A response whose single relationship has an integer `target` — the
input on which `sanitize_response` raises `AttributeError`. -/
def intTargetResponse : PyVal :=
  .dict [("objects", .list [.dict
    [("name", .str "A"), ("description", .str "b"),
     ("relationships", .list [.dict
       [("target", .int 5), ("description", .str "x")]])]])]

/-- A schema-conforming payload whose only object has a two-character
description, which the quality filter drops. -/
def shortDescPayload : PyVal :=
  .dict [("objects", .list [.dict
    [("name", .str "Alice"), ("description", .str "Hi")]])]

/-- A persisted entity snapshot carrying `last_updated` but no
`first_seen`. -/
def luOnlyData : ObjectData := ⟨"A", "b", [], none, some 0⟩

/-- A schema-conforming payload whose object survives the quality filter. -/
def scientistPayload : PyVal :=
  .dict [("objects", .list [.dict
    [("name", .str "Alice"), ("description", .str "A scientist"),
     ("relationships", .list [.dict
       [("target", .str "Alice"), ("description", .str "her own rival")]])]])]

/-- The event trace defeating the single-flight guard: a retry correction
starts, a debounce elapses while it is in flight (whose `finally` wrongly
clears `is_processing`), and a second debounce then starts an extraction
concurrent with the still-running correction. -/
def overlapTrace : List OrchEvent :=
  [.retryRequest, .textChanged, .elapse, .textChanged, .elapse]

/-!
## Helper lemmas about the collection operations
-/

theorem relSetEq_refl (a : List Relationship) : relSetEq a a = true := by
  simp only [relSetEq, Bool.and_eq_true, List.all_eq_true]
  constructor <;>
    exact fun r hr => by simpa [List.contains] using List.elem_iff.mpr hr

theorem setObj_cons (p : String × NarrativeObject) (t : Collection)
    (j : String) (o : NarrativeObject) :
    setObj (p :: t) j o = (if p.1 == j then (j, o) else p) :: setObj t j o :=
  rfl

theorem lookupObj_cons (p : String × NarrativeObject) (t : Collection)
    (k : String) :
    lookupObj (p :: t) k = if p.1 == k then some p.2 else lookupObj t k := by
  by_cases h : (p.1 == k) = true
  · simp [lookupObj, List.find?_cons_of_pos, h]
  · simp only [Bool.not_eq_true] at h
    simp [lookupObj, List.find?_cons_of_neg, h]

theorem containsName_cons (p : String × NarrativeObject) (t : Collection)
    (k : String) :
    containsName (p :: t) k = (p.1 == k || containsName t k) := by
  simp [containsName]

theorem containsName_iff_mem_keys {c : Collection} {k : String} :
    containsName c k = true ↔ k ∈ c.map (fun p => p.1) := by
  simp only [containsName, List.any_eq_true, List.mem_map]
  constructor
  · rintro ⟨p, hp, hb⟩
    exact ⟨p, hp, by simpa using hb⟩
  · rintro ⟨p, hp, hb⟩
    exact ⟨p, hp, by simpa using hb⟩

theorem lookupObj_some_of_containsName {c : Collection} {k : String}
    (h : containsName c k = true) : ∃ o, lookupObj c k = some o := by
  induction c with
  | nil => simp [containsName] at h
  | cons p t ih =>
      rw [lookupObj_cons]
      by_cases hp : (p.1 == k) = true
      · exact ⟨p.2, by rw [if_pos hp]⟩
      · rw [containsName_cons] at h
        simp only [Bool.not_eq_true] at hp
        rw [hp, Bool.false_or] at h
        obtain ⟨o, ho⟩ := ih h
        exact ⟨o, by rw [if_neg (by simp [hp]), ho]⟩

theorem lookupObj_none_of_not_containsName {c : Collection} {k : String}
    (h : containsName c k = false) : lookupObj c k = none := by
  induction c with
  | nil => rfl
  | cons p t ih =>
      rw [containsName_cons, Bool.or_eq_false_iff] at h
      rw [lookupObj_cons, if_neg (by simp [h.1]), ih h.2]

theorem containsName_of_lookupObj {c : Collection} {k : String}
    {o : NarrativeObject} (h : lookupObj c k = some o) :
    containsName c k = true := by
  by_contra hcon
  rw [Bool.not_eq_true] at hcon
  rw [lookupObj_none_of_not_containsName hcon] at h
  exact Option.noConfusion h

theorem wf_tail {p : String × NarrativeObject} {t : Collection}
    (hwf : CollWF (p :: t)) : CollWF t :=
  ⟨(List.nodup_cons.mp hwf.1).2,
   fun q hq => hwf.2 q (List.mem_cons_of_mem p hq)⟩

theorem wf_head_not_in_tail {p : String × NarrativeObject} {t : Collection}
    (hwf : CollWF (p :: t)) : containsName t p.1 = false := by
  by_contra hcon
  rw [Bool.not_eq_false] at hcon
  exact (List.nodup_cons.mp hwf.1).1 (containsName_iff_mem_keys.mp hcon)

theorem wf_lookup_name {c : Collection} {k : String} {o : NarrativeObject}
    (hwf : CollWF c) (h : lookupObj c k = some o) : o.name = k := by
  induction c with
  | nil => exact Option.noConfusion h
  | cons p t ih =>
      rw [lookupObj_cons] at h
      by_cases hp : (p.1 == k) = true
      · rw [if_pos hp] at h
        have hk : p.1 = k := by simpa using hp
        have ho : p.2 = o := Option.some.inj h
        rw [← ho, hwf.2 p (List.mem_cons_self p t), hk]
      · rw [if_neg hp] at h
        exact ih (wf_tail hwf) h

theorem keys_setObj (c : Collection) (j : String) (o : NarrativeObject) :
    (setObj c j o).map (fun p => p.1) = c.map (fun p => p.1) := by
  induction c with
  | nil => rfl
  | cons p t ih =>
      rw [setObj_cons, List.map_cons, List.map_cons, ih]
      by_cases hp : (p.1 == j) = true
      · have hj : p.1 = j := by simpa using hp
        rw [if_pos hp]
        simp [hj]
      · rw [if_neg hp]

theorem setObj_length (c : Collection) (j : String) (o : NarrativeObject) :
    (setObj c j o).length = c.length := by
  simp [setObj]

theorem containsName_setObj (c : Collection) (j k : String)
    (o : NarrativeObject) :
    containsName (setObj c j o) k = containsName c k := by
  induction c with
  | nil => rfl
  | cons p t ih =>
      rw [setObj_cons, containsName_cons, containsName_cons, ih]
      by_cases hp : (p.1 == j) = true
      · have hj : p.1 = j := by simpa using hp
        rw [if_pos hp]
        simp [hj]
      · rw [if_neg hp]

theorem lookupObj_setObj_ne {c : Collection} {j k : String}
    {o : NarrativeObject} (h : k ≠ j) :
    lookupObj (setObj c j o) k = lookupObj c k := by
  induction c with
  | nil => rfl
  | cons p t ih =>
      rw [setObj_cons, lookupObj_cons, lookupObj_cons, ih]
      by_cases hp : (p.1 == j) = true
      · have hj : p.1 = j := by simpa using hp
        rw [if_pos hp]
        have hjk : (j == k) = false := by simpa using (Ne.symm h)
        have hpk : (p.1 == k) = false := by rw [hj]; exact hjk
        rw [if_neg (by simp [hjk]), if_neg (by simp [hpk])]
      · rw [if_neg hp]

theorem lookupObj_setObj_self {c : Collection} {j : String}
    {ex : NarrativeObject} (o : NarrativeObject)
    (h : lookupObj c j = some ex) :
    lookupObj (setObj c j o) j = some o := by
  induction c with
  | nil => exact Option.noConfusion h
  | cons p t ih =>
      rw [lookupObj_cons] at h
      rw [setObj_cons, lookupObj_cons]
      by_cases hp : (p.1 == j) = true
      · rw [if_pos hp]
        simp
      · rw [if_neg hp] at h
        rw [if_neg hp, ih h, if_neg hp]

theorem setObj_absent {t : Collection} {j : String} {o : NarrativeObject}
    (h : containsName t j = false) : setObj t j o = t := by
  induction t with
  | nil => rfl
  | cons p r ih =>
      rw [containsName_cons, Bool.or_eq_false_iff] at h
      rw [setObj_cons, if_neg (by simp [h.1]), ih h.2]

theorem setObj_wf {c : Collection} {j : String} {o : NarrativeObject}
    (hwf : CollWF c) (hn : o.name = j) : CollWF (setObj c j o) := by
  refine ⟨by rw [keys_setObj]; exact hwf.1, ?_⟩
  intro p hp
  simp only [setObj, List.mem_map] at hp
  obtain ⟨q, hq, hqp⟩ := hp
  by_cases hb : (q.1 == j) = true
  · rw [if_pos hb] at hqp
    rw [← hqp]
    exact hn
  · rw [if_neg hb] at hqp
    rw [← hqp]
    exact hwf.2 q hq

theorem setObj_self {c : Collection} {j : String} {o : NarrativeObject}
    (hwf : CollWF c) (h : lookupObj c j = some o) : setObj c j o = c := by
  induction c with
  | nil => rfl
  | cons p t ih =>
      rw [lookupObj_cons] at h
      rw [setObj_cons]
      by_cases hp : (p.1 == j) = true
      · rw [if_pos hp] at h
        have hj : p.1 = j := by simpa using hp
        have ho : p.2 = o := Option.some.inj h
        have habs : containsName t j = false := by
          have := wf_head_not_in_tail hwf
          rwa [hj] at this
        rw [if_pos hp, setObj_absent habs]
        congr 1
        obtain ⟨k, v⟩ := p
        simp only at hj ho
        rw [hj, ho]
      · rw [if_neg hp] at h
        rw [if_neg hp, ih (wf_tail hwf) h]

theorem contentEq_refl (o : NarrativeObject) : ContentEq o o :=
  ⟨rfl, rfl, relSetEq_refl _⟩

theorem update_from_of_name_eq {st obj : NarrativeObject} (now : Nat)
    (h : st.name = obj.name) :
    ∃ upd ch, st.update_from obj now = some (upd, ch) ∧
      upd.name = st.name ∧ upd.first_seen = st.first_seen ∧
      ContentEq upd obj ∧
      (upd.last_updated = now ∨ upd.last_updated = st.last_updated) := by
  by_cases hd : st.description = obj.description <;>
    by_cases hr : relSetEq st.relationships obj.relationships = false
  · exact ⟨⟨obj.name, obj.description, obj.relationships, st.first_seen, now⟩,
      true, by simp [NarrativeObject.update_from, h, hd, hr],
      h.symm, rfl, ⟨rfl, rfl, relSetEq_refl _⟩, Or.inl rfl⟩
  · have hrt : relSetEq st.relationships obj.relationships = true := by
      revert hr; cases relSetEq st.relationships obj.relationships <;> simp
    exact ⟨⟨obj.name, obj.description, st.relationships, st.first_seen,
        st.last_updated⟩,
      false, by simp [NarrativeObject.update_from, h, hd, hr],
      h.symm, rfl, ⟨rfl, rfl, hrt⟩, Or.inr rfl⟩
  · exact ⟨⟨obj.name, obj.description, obj.relationships, st.first_seen, now⟩,
      true, by simp [NarrativeObject.update_from, h, hd, hr],
      h.symm, rfl, ⟨rfl, rfl, relSetEq_refl _⟩, Or.inl rfl⟩
  · have hrt : relSetEq st.relationships obj.relationships = true := by
      revert hr; cases relSetEq st.relationships obj.relationships <;> simp
    exact ⟨⟨obj.name, obj.description, st.relationships, st.first_seen, now⟩,
      true, by simp [NarrativeObject.update_from, h, hd, hr],
      h.symm, rfl, ⟨rfl, rfl, hrt⟩, Or.inl rfl⟩

theorem update_from_of_contentEq {st obj : NarrativeObject} (now : Nat)
    (h : ContentEq st obj) : st.update_from obj now = some (st, false) := by
  obtain ⟨hn, hd, hr⟩ := h
  simp only [NarrativeObject.update_from, hn, hd, hr]
  rw [if_neg (by simp)]
  simp [NarrativeObject.mk.injEq, hn.symm, hd.symm]

theorem lookupObj_append_ne {c : Collection} {j k : String}
    {o : NarrativeObject} (h : k ≠ j) :
    lookupObj (c ++ [(j, o)]) k = lookupObj c k := by
  induction c with
  | nil =>
      rw [List.nil_append, lookupObj_cons, if_neg (by simp [Ne.symm h])]
  | cons p t ih =>
      rw [List.cons_append, lookupObj_cons, lookupObj_cons, ih]

theorem lookupObj_append_self {c : Collection} {j : String}
    {o : NarrativeObject} (h : lookupObj c j = none) :
    lookupObj (c ++ [(j, o)]) j = some o := by
  induction c with
  | nil => rw [List.nil_append, lookupObj_cons]; simp
  | cons p t ih =>
      rw [lookupObj_cons] at h
      by_cases hp : (p.1 == j) = true
      · rw [if_pos hp] at h; exact Option.noConfusion h
      · rw [if_neg hp] at h
        rw [List.cons_append, lookupObj_cons, if_neg hp, ih h]

theorem wf_append {c : Collection} {obj : NarrativeObject}
    (hwf : CollWF c) (h : containsName c obj.name = false) :
    CollWF (c ++ [(obj.name, obj)]) := by
  constructor
  · rw [List.map_append]
    rw [List.nodup_append]
    refine ⟨hwf.1, List.nodup_singleton _, ?_⟩
    intro x hx hmem
    rw [List.mem_map] at hmem
    obtain ⟨q, hq, hqx⟩ := hmem
    rw [List.mem_singleton] at hq
    rw [hq] at hqx
    rw [← hqx] at hx
    exact absurd (containsName_iff_mem_keys.mpr hx)
      (by rw [h]; exact Bool.false_ne_true)
  · intro p hp
    rw [List.mem_append] at hp
    rcases hp with hp | hp
    · exact hwf.2 p hp
    · rw [List.mem_singleton] at hp
      rw [hp]

theorem containsName_append_left {c : Collection} {k : String}
    (x : String × NarrativeObject) (h : containsName c k = true) :
    containsName (c ++ [x]) k = true := by
  simp only [containsName, List.any_append, Bool.or_eq_true]
  exact Or.inl h

/-- The master specification of `add_or_update` on a well-formed collection:
it succeeds, preserves well-formedness and all existing names, never
shrinks, only touches the entry named `obj.name`, and leaves at that name an
entity agreeing with `obj` in name, description and relationship set. -/
theorem add_or_update_spec {c : Collection} (obj : NarrativeObject)
    (now : Nat) (hwf : CollWF c) :
    ∃ c' ch, add_or_update c obj now = some (c', ch) ∧
      CollWF c' ∧
      (∀ k, containsName c k = true → containsName c' k = true) ∧
      c.length ≤ c'.length ∧
      (∀ k, k ≠ obj.name → lookupObj c' k = lookupObj c k) ∧
      ∃ st, lookupObj c' obj.name = some st ∧ ContentEq st obj := by
  cases hl : lookupObj c obj.name with
  | some ex =>
      have hexn : ex.name = obj.name := wf_lookup_name hwf hl
      obtain ⟨upd, ch, hupd, hname, hfs, hce, hlu⟩ :=
        update_from_of_name_eq now hexn
      refine ⟨setObj c obj.name upd, ch, ?_, ?_, ?_, ?_, ?_, ?_⟩
      · rw [add_or_update, hl]
        show (ex.update_from obj now).map _ = _
        rw [hupd]
        rfl
      · exact setObj_wf hwf (hname.trans hexn)
      · intro k hk; rwa [containsName_setObj]
      · rw [setObj_length]
      · intro k hk; exact lookupObj_setObj_ne hk
      · exact ⟨upd, lookupObj_setObj_self upd hl, hce⟩
  | none =>
      have habs : containsName c obj.name = false := by
        by_contra hcon
        rw [Bool.not_eq_false] at hcon
        obtain ⟨o, ho⟩ := lookupObj_some_of_containsName hcon
        rw [hl] at ho
        exact Option.noConfusion ho
      refine ⟨c ++ [(obj.name, obj)], true, ?_, ?_, ?_, ?_, ?_, ?_⟩
      · rw [add_or_update, hl]
      · exact wf_append hwf habs
      · intro k hk; exact containsName_append_left _ hk
      · rw [List.length_append]; omega
      · intro k hk; exact lookupObj_append_ne hk
      · exact ⟨obj, lookupObj_append_self hl, contentEq_refl obj⟩

/-- Frame property of `add_or_update` (no well-formedness needed): names
other than `obj.name` resolve exactly as before. -/
theorem add_or_update_frame {c cx : Collection} {obj : NarrativeObject}
    {now : Nat} {ch : Bool} {k : String}
    (h : add_or_update c obj now = some (cx, ch)) (hk : k ≠ obj.name) :
    lookupObj cx k = lookupObj c k := by
  rw [add_or_update] at h
  cases hl : lookupObj c obj.name with
  | some ex =>
      rw [hl] at h
      have hx : (ex.update_from obj now).map
          (fun r => (setObj c obj.name r.1, r.2)) = some (cx, ch) := h
      cases hu : ex.update_from obj now with
      | none =>
          rw [hu] at hx
          exact Option.noConfusion hx
      | some r =>
          rw [hu] at hx
          simp only [Option.map_some'] at hx
          have hc : cx = setObj c obj.name r.1 :=
            (congrArg Prod.fst (Option.some.inj hx)).symm
          rw [hc]
          exact lookupObj_setObj_ne hk
  | none =>
      rw [hl] at h
      have hx : some (c ++ [(obj.name, obj)], true) = some (cx, ch) := h
      have hc : cx = c ++ [(obj.name, obj)] :=
        (congrArg Prod.fst (Option.some.inj hx)).symm
      rw [hc]
      exact lookupObj_append_ne hk

theorem mergeLoop_cons_eq {c c1 c2 : Collection} {obj : NarrativeObject}
    {rest : List NarrativeObject} {ns : List String} {now : Nat} {ch : Bool}
    {a u un : Nat}
    (h1 : add_or_update c obj now = some (c1, ch))
    (h2 : mergeLoop c1 rest ns now = some (c2, a, u, un)) :
    mergeLoop c (obj :: rest) ns now =
      if ch then
        if ns.contains obj.name then some (c2, a, u + 1, un)
        else some (c2, a + 1, u, un)
      else some (c2, a, u, un + 1) := by
  simp only [mergeLoop, h1, h2]

theorem mergeLoop_cons_none {c : Collection} {obj : NarrativeObject}
    {rest : List NarrativeObject} {ns : List String} {now : Nat}
    (h1 : add_or_update c obj now = none) :
    mergeLoop c (obj :: rest) ns now = none := by
  simp only [mergeLoop, h1]

/-- The master specification of the merge loop on a well-formed collection:
it succeeds, preserves well-formedness and all existing names, never
shrinks, and classifies every input entity under exactly one of the three
counters. -/
theorem mergeLoop_spec (L : List NarrativeObject) :
    ∀ (c : Collection) (ns : List String) (now : Nat), CollWF c →
    ∃ c' a u un, mergeLoop c L ns now = some (c', a, u, un) ∧
      CollWF c' ∧
      (∀ k, containsName c k = true → containsName c' k = true) ∧
      c.length ≤ c'.length ∧
      a + u + un = L.length := by
  induction L with
  | nil =>
      intro c ns now hwf
      exact ⟨c, 0, 0, 0, rfl, hwf, fun _ hk => hk, le_refl _, rfl⟩
  | cons obj rest ih =>
      intro c ns now hwf
      obtain ⟨c1, ch, heq, hwf1, hmono1, hlen1, hframe1, hcontent1⟩ :=
        add_or_update_spec obj now hwf
      obtain ⟨c2, a, u, un, heq2, hwf2, hmono2, hlen2, hsum⟩ :=
        ih c1 ns now hwf1
      have hcons := mergeLoop_cons_eq heq heq2
      have hmono : ∀ k, containsName c k = true → containsName c2 k = true :=
        fun k hk => hmono2 k (hmono1 k hk)
      have hlen : c.length ≤ c2.length := le_trans hlen1 hlen2
      cases hch : ch with
      | true =>
          rw [hch] at hcons
          cases hcont : ns.contains obj.name with
          | true =>
              rw [hcont] at hcons
              simp only [if_true] at hcons
              exact ⟨c2, a, u + 1, un, by simpa using hcons, hwf2, hmono,
                hlen, by simp [List.length_cons]; omega⟩
          | false =>
              rw [hcont] at hcons
              simp only [Bool.false_eq_true, if_false, if_true] at hcons
              exact ⟨c2, a + 1, u, un, hcons, hwf2, hmono, hlen,
                by simp [List.length_cons]; omega⟩
      | false =>
          rw [hch] at hcons
          simp only [Bool.false_eq_true, if_false] at hcons
          exact ⟨c2, a, u, un + 1, hcons, hwf2, hmono, hlen,
            by simp [List.length_cons]; omega⟩

/-- Frame property of the merge loop: a name that occurs in none of the
incoming entities resolves exactly as before the merge. -/
theorem mergeLoop_frame (L : List NarrativeObject) :
    ∀ {c c' : Collection} {ns : List String} {now a u un : Nat} {k : String},
    mergeLoop c L ns now = some (c', a, u, un) →
    k ∉ L.map (fun o => o.name) →
    lookupObj c' k = lookupObj c k := by
  induction L with
  | nil =>
      intro c c' ns now a u un k h hk
      have hc : c' = c := by
        simp only [mergeLoop, Option.some.injEq, Prod.mk.injEq] at h
        exact h.1.symm
      rw [hc]
  | cons obj rest ih =>
      intro c c' ns now a u un k h hk
      have hko : k ≠ obj.name := by
        intro hcon
        exact hk (by rw [List.map_cons, hcon]; exact List.mem_cons_self _ _)
      have hkr : k ∉ rest.map (fun o => o.name) := by
        intro hcon
        exact hk (by rw [List.map_cons]; exact List.mem_cons_of_mem _ hcon)
      cases ha : add_or_update c obj now with
      | none => rw [mergeLoop_cons_none ha] at h; exact Option.noConfusion h
      | some q =>
          obtain ⟨c1, ch⟩ := q
          cases hm : mergeLoop c1 rest ns now with
          | none =>
              simp only [mergeLoop, ha, hm] at h
              exact Option.noConfusion h
          | some r =>
              obtain ⟨c2, a2, u2, un2⟩ := r
              rw [mergeLoop_cons_eq ha hm] at h
              have hc : c' = c2 := by
                by_cases hch : ch = true
                · by_cases hcont : ns.contains obj.name = true
                  · rw [if_pos hch, if_pos hcont] at h
                    exact (congrArg Prod.fst (Option.some.inj h)).symm
                  · rw [if_pos hch, if_neg hcont] at h
                    exact (congrArg Prod.fst (Option.some.inj h)).symm
                · rw [if_neg hch] at h
                  exact (congrArg Prod.fst (Option.some.inj h)).symm
              rw [hc, ih hm hkr, add_or_update_frame ha hko]

/-- After a merge of entities with pairwise-distinct names, each input
entity's name resolves to a stored entity agreeing with it in name,
description and relationship set. -/
theorem mergeLoop_content (L : List NarrativeObject) :
    ∀ {c c' : Collection} {ns : List String} {now a u un : Nat},
    CollWF c → (L.map (fun o => o.name)).Nodup →
    mergeLoop c L ns now = some (c', a, u, un) →
    ∀ obj ∈ L, ∃ st, lookupObj c' obj.name = some st ∧ ContentEq st obj := by
  induction L with
  | nil =>
      intro c c' ns now a u un _ _ _ obj hobj
      exact absurd hobj (List.not_mem_nil obj)
  | cons objH rest ih =>
      intro c c' ns now a u un hwf hnd h obj hobj
      obtain ⟨c1, ch, heq, hwf1, hmono1, hlen1, hframe1, st, hst, hstc⟩ :=
        add_or_update_spec objH now hwf
      cases hm : mergeLoop c1 rest ns now with
      | none =>
          simp only [mergeLoop, heq, hm] at h
          exact Option.noConfusion h
      | some r =>
          obtain ⟨c2, a2, u2, un2⟩ := r
          rw [mergeLoop_cons_eq heq hm] at h
          have hc : c' = c2 := by
            by_cases hch : ch = true
            · by_cases hcont : ns.contains objH.name = true
              · rw [if_pos hch, if_pos hcont] at h
                exact (congrArg Prod.fst (Option.some.inj h)).symm
              · rw [if_pos hch, if_neg hcont] at h
                exact (congrArg Prod.fst (Option.some.inj h)).symm
            · rw [if_neg hch] at h
              exact (congrArg Prod.fst (Option.some.inj h)).symm
          subst hc
          rw [List.map_cons, List.nodup_cons] at hnd
          rcases List.mem_cons.mp hobj with hobj | hobj
          · subst hobj
            refine ⟨st, ?_, hstc⟩
            rw [mergeLoop_frame rest hm hnd.1, hst]
          · exact ih hwf1 hnd.2 hm obj hobj

/-- Re-merging entities that already agree with the stored content leaves
the collection untouched and counts every entity as unchanged. -/
theorem mergeLoop_unchanged (L : List NarrativeObject) :
    ∀ (c : Collection) (ns : List String) (now : Nat), CollWF c →
    (∀ obj ∈ L, ∃ st, lookupObj c obj.name = some st ∧ ContentEq st obj) →
    mergeLoop c L ns now = some (c, 0, 0, L.length) := by
  induction L with
  | nil => intro c ns now _ _; rfl
  | cons obj rest ih =>
      intro c ns now hwf hcontent
      obtain ⟨st, hst, hstc⟩ := hcontent obj (List.mem_cons_self _ _)
      have ha : add_or_update c obj now = some (c, false) := by
        rw [add_or_update, hst]
        show (st.update_from obj now).map _ = _
        rw [update_from_of_contentEq now hstc]
        simp only [Option.map_some']
        rw [setObj_self hwf hst]
      have hrest : mergeLoop c rest ns now = some (c, 0, 0, rest.length) :=
        ih c ns now hwf
          (fun o ho => hcontent o (List.mem_cons_of_mem _ ho))
      rw [mergeLoop_cons_eq ha hrest]
      simp [List.length_cons]

theorem merge_from_list_false_eq {c c1 : Collection}
    {L : List NarrativeObject} {now a u un : Nat}
    (h : mergeLoop c L (c.map (fun p => p.1)) now = some (c1, a, u, un)) :
    merge_from_list c L false now = some (c1, ⟨a, u, un, 0⟩) := by
  simp only [merge_from_list, h]
  rw [if_neg Bool.false_ne_true]

/-!
## Theorems for the claims
-/

/-- C1: with `remove_missing = false`, a merge never removes an entity:
the merge succeeds on any well-formed collection, every name present before
is present after, and `total_count` (the number of entries) never
decreases. -/
theorem merge_never_removes (c : Collection) (L : List NarrativeObject)
    (now : Nat) (hwf : CollWF c) :
    ∃ c' stats, merge_from_list c L false now = some (c', stats) ∧
      (∀ k, containsName c k = true → containsName c' k = true) ∧
      c.length ≤ c'.length := by
  obtain ⟨c', a, u, un, heq, _, hmono, hlen, -⟩ :=
    mergeLoop_spec L c (c.map (fun p => p.1)) now hwf
  exact ⟨c', ⟨a, u, un, 0⟩, merge_from_list_false_eq heq, hmono, hlen⟩

/-- Witness for C1: a merge of a disjoint singleton into a one-entry
collection keeps the old name and grows the count. -/
theorem merge_never_removes_witness :
    ∃ c' stats,
      merge_from_list [("B", ⟨"B", "d", [], 0, 0⟩)] [⟨"A", "x", [], 1, 1⟩]
          false 2 = some (c', stats) ∧
      (∀ k, containsName [("B", ⟨"B", "d", [], 0, 0⟩)] k = true →
        containsName c' k = true) ∧
      ([("B", (⟨"B", "d", [], 0, 0⟩ : NarrativeObject))] : Collection).length ≤
        c'.length :=
  merge_never_removes [("B", ⟨"B", "d", [], 0, 0⟩)] [⟨"A", "x", [], 1, 1⟩] 2
    (by constructor
        · simp
        · intro p hp
          rw [List.mem_singleton] at hp
          rw [hp])

/-- C10: every merge classifies each input entity under exactly one of the
three counters, so `added + updated + unchanged` equals the input length;
and with duplicate names the `added` count can exceed the collection's
actual growth, as the concrete duplicate-name merge shows (`added = 2`
while the collection grows from zero entries to one). -/
theorem merge_stats_partition :
    (∀ (c : Collection) (L : List NarrativeObject) (now : Nat), CollWF c →
      ∃ c' s, merge_from_list c L false now = some (c', s) ∧
        s.added + s.updated + s.unchanged = L.length) ∧
    (merge_from_list [] dupNameList false 1 =
        some ([("A", ⟨"A", "y", [], 0, 1⟩)], ⟨2, 0, 0, 0⟩) ∧
      (MergeStats.mk 2 0 0 0).added >
        ([("A", (⟨"A", "y", [], 0, 1⟩ : NarrativeObject))] : Collection).length -
          ([] : Collection).length) := by
  constructor
  · intro c L now hwf
    obtain ⟨c', a, u, un, heq, -, -, -, hsum⟩ :=
      mergeLoop_spec L c (c.map (fun p => p.1)) now hwf
    exact ⟨c', ⟨a, u, un, 0⟩, merge_from_list_false_eq heq, hsum⟩
  · exact ⟨rfl, by decide⟩

/-- Witness for C10 at a concrete collection and list. -/
theorem merge_stats_partition_witness :
    ∃ c' s, merge_from_list [] [⟨"A", "x", [], 0, 0⟩] false 1 = some (c', s) ∧
      s.added + s.updated + s.unchanged = 1 :=
  merge_stats_partition.1 [] [⟨"A", "x", [], 0, 0⟩] 1
    ⟨List.nodup_nil, fun p hp => absurd hp (List.not_mem_nil p)⟩

/-- C8 (amended): for entity lists with pairwise-distinct names, merging
the list twice leaves the collection unchanged on the second pass with
stats `added = 0, updated = 0, unchanged = |L|`. -/
theorem remerge_idempotent_distinct_names (c : Collection)
    (L : List NarrativeObject) (now now2 : Nat) (hwf : CollWF c)
    (hnd : (L.map (fun o => o.name)).Nodup) :
    ∃ c1 s1, merge_from_list c L false now = some (c1, s1) ∧
      merge_from_list c1 L false now2 = some (c1, ⟨0, 0, L.length, 0⟩) := by
  obtain ⟨c1, a, u, un, heq, hwf1, -, -, -⟩ :=
    mergeLoop_spec L c (c.map (fun p => p.1)) now hwf
  have hcontent := mergeLoop_content L hwf hnd heq
  have hsecond : mergeLoop c1 L (c1.map (fun p => p.1)) now2 =
      some (c1, 0, 0, L.length) :=
    mergeLoop_unchanged L c1 (c1.map (fun p => p.1)) now2 hwf1 hcontent
  exact ⟨c1, ⟨a, u, un, 0⟩, merge_from_list_false_eq heq,
    merge_from_list_false_eq hsecond⟩

/-- Witness for C8 at a concrete collection and distinct-name list. -/
theorem remerge_idempotent_distinct_names_witness :
    ∃ c1 s1,
      merge_from_list [] [⟨"A", "x", [], 0, 0⟩, ⟨"B", "y", [], 0, 0⟩]
          false 1 = some (c1, s1) ∧
      merge_from_list c1 [⟨"A", "x", [], 0, 0⟩, ⟨"B", "y", [], 0, 0⟩]
          false 2 = some (c1, ⟨0, 0, 2, 0⟩) :=
  remerge_idempotent_distinct_names []
    [⟨"A", "x", [], 0, 0⟩, ⟨"B", "y", [], 0, 0⟩] 1 2
    ⟨List.nodup_nil, fun p hp => absurd hp (List.not_mem_nil p)⟩
    (by decide)

/-- C2: the claim says at most one extraction is ever in flight, but the
`finally` block of `_debounced_process_text` clears `is_processing` even on
the already-processing early-return path (src/tui_app.py lines 596-618), so
after `overlapTrace` a debounce-initiated extraction runs concurrently with
the still-unfinished retry correction: two calls are in flight. -/
theorem single_flight_violated_eval :
    orchRun overlapTrace =
      { processing := true, debounce := some .extracting,
        retryBusy := true, busyReports := 1 } ∧
    inFlight (orchRun overlapTrace) = 2 := by
  constructor <;> rfl

/-- C3: the claim says `sanitize_response` never raises on any JSON-like
input, but `_sanitize_relationship` calls `.strip()` on the raw `target`
value without an `isinstance` check (src/schema_validator.py line 228), so
a relationship with an integer `target` raises `AttributeError`. -/
theorem sanitize_raises_on_int_target :
    sanitizeResponse intTargetResponse = .error () := by
  rfl

theorem lookupObj_mem {c : Collection} {k : String} {o : NarrativeObject}
    (h : lookupObj c k = some o) : ∃ p, p ∈ c ∧ p.2 = o := by
  simp only [lookupObj, Option.map_eq_some'] at h
  obtain ⟨p, hp, hpo⟩ := h
  exact ⟨p, List.mem_of_find?_eq_some hp, hpo⟩

theorem mem_setObj {c : Collection} {j : String} {o : NarrativeObject}
    {p : String × NarrativeObject} (hp : p ∈ setObj c j o) :
    p ∈ c ∨ p = (j, o) := by
  simp only [setObj, List.mem_map] at hp
  obtain ⟨q, hq, hqp⟩ := hp
  by_cases hb : (q.1 == j) = true
  · right; rw [if_pos hb] at hqp; exact hqp.symm
  · left; rw [if_neg hb] at hqp; rwa [← hqp]

theorem update_from_inv {ex obj upd : NarrativeObject} {ch : Bool} {now : Nat}
    (h : ex.update_from obj now = some (upd, ch))
    (h1 : TimestampInv ex) (h2 : ex.first_seen ≤ now) :
    TimestampInv upd ∧ upd.first_seen ≤ now := by
  by_cases hn : ex.name = obj.name
  · obtain ⟨upd2, ch2, heq, -, hfs, -, hlu⟩ := update_from_of_name_eq now hn
    rw [heq] at h
    have hu : upd2 = upd := congrArg Prod.fst (Option.some.inj h)
    subst hu
    refine ⟨?_, by rw [hfs]; exact h2⟩
    rcases hlu with hlu | hlu
    · rw [TimestampInv, hfs, hlu]; exact h2
    · rw [TimestampInv, hfs, hlu]; exact h1
  · rw [NarrativeObject.update_from, if_pos (by simpa using hn)] at h
    exact Option.noConfusion h

theorem add_or_update_inv {c c1 : Collection} {obj : NarrativeObject}
    {now : Nat} {ch : Bool}
    (h : add_or_update c obj now = some (c1, ch))
    (hc : ∀ p ∈ c, TimestampInv p.2 ∧ p.2.first_seen ≤ now)
    (ho : TimestampInv obj ∧ obj.first_seen ≤ now) :
    ∀ p ∈ c1, TimestampInv p.2 ∧ p.2.first_seen ≤ now := by
  rw [add_or_update] at h
  cases hl : lookupObj c obj.name with
  | some ex =>
      rw [hl] at h
      have h2 : (ex.update_from obj now).map
          (fun r => (setObj c obj.name r.1, r.2)) = some (c1, ch) := h
      cases hu : ex.update_from obj now with
      | none => rw [hu] at h2; exact Option.noConfusion h2
      | some r =>
          rw [hu] at h2
          simp only [Option.map_some'] at h2
          have hcc : c1 = setObj c obj.name r.1 :=
            (congrArg Prod.fst (Option.some.inj h2)).symm
          subst hcc
          obtain ⟨pex, hpex, hpex2⟩ := lookupObj_mem hl
          have hexinv := hc pex hpex
          rw [hpex2] at hexinv
          have hupd : TimestampInv r.1 ∧ r.1.first_seen ≤ now := by
            obtain ⟨r1, r2⟩ := r
            exact update_from_inv hu hexinv.1 hexinv.2
          intro p hp
          rcases mem_setObj hp with hp | hp
          · exact hc p hp
          · rw [hp]; exact hupd
  | none =>
      rw [hl] at h
      have hcc : c1 = c ++ [(obj.name, obj)] :=
        (congrArg Prod.fst (Option.some.inj h)).symm
      subst hcc
      intro p hp
      rcases List.mem_append.mp hp with hp | hp
      · exact hc p hp
      · rw [List.mem_singleton] at hp
        rw [hp]
        exact ho

theorem mergeLoop_inv (L : List NarrativeObject) :
    ∀ {c c1 : Collection} {ns : List String} {now a u un : Nat},
    mergeLoop c L ns now = some (c1, a, u, un) →
    (∀ p ∈ c, TimestampInv p.2 ∧ p.2.first_seen ≤ now) →
    (∀ o ∈ L, TimestampInv o ∧ o.first_seen ≤ now) →
    ∀ p ∈ c1, TimestampInv p.2 ∧ p.2.first_seen ≤ now := by
  induction L with
  | nil =>
      intro c c1 ns now a u un h hc _
      have hcc : c1 = c := by
        simp only [mergeLoop, Option.some.injEq, Prod.mk.injEq] at h
        exact h.1.symm
      rw [hcc]; exact hc
  | cons obj rest ih =>
      intro c c1 ns now a u un h hc hL
      cases ha : add_or_update c obj now with
      | none => rw [mergeLoop_cons_none ha] at h; exact Option.noConfusion h
      | some q =>
          obtain ⟨cmid, ch⟩ := q
          cases hm : mergeLoop cmid rest ns now with
          | none =>
              simp only [mergeLoop, ha, hm] at h
              exact Option.noConfusion h
          | some r =>
              obtain ⟨c2, a2, u2, un2⟩ := r
              rw [mergeLoop_cons_eq ha hm] at h
              have hcc : c1 = c2 := by
                by_cases hch : ch = true
                · by_cases hcont : ns.contains obj.name = true
                  · rw [if_pos hch, if_pos hcont] at h
                    exact (congrArg Prod.fst (Option.some.inj h)).symm
                  · rw [if_pos hch, if_neg hcont] at h
                    exact (congrArg Prod.fst (Option.some.inj h)).symm
                · rw [if_neg hch] at h
                  exact (congrArg Prod.fst (Option.some.inj h)).symm
              subst hcc
              have hmid := add_or_update_inv ha hc
                (hL obj (List.mem_cons_self _ _))
              exact ih hm hmid
                (fun o ho => hL o (List.mem_cons_of_mem _ ho))

theorem removeFold_mem (ns : List String) :
    ∀ (c : Collection) (n0 : Nat) (p : String × NarrativeObject),
    p ∈ (ns.foldl (fun (acc : Collection × Nat) n =>
        let step := removeObj acc.1 n
        (step.1, if step.2 then acc.2 + 1 else acc.2)) (c, n0)).1 →
    p ∈ c := by
  induction ns with
  | nil => intro c n0 p hp; exact hp
  | cons n rest ih =>
      intro c n0 p hp
      rw [List.foldl_cons] at hp
      have hstep := ih (removeObj c n).1
        (if (removeObj c n).2 then n0 + 1 else n0) p hp
      rw [removeObj] at hstep
      by_cases hc : containsName c n = true
      · rw [if_pos hc] at hstep
        exact (List.eraseP_sublist c).subset hstep
      · rw [if_neg hc] at hstep
        exact hstep

/-- Every entity stored in the result of a merge (with either value of
`remove_missing`) satisfies the timestamp invariant, provided the inputs do
and the clock has not run backwards. -/
theorem merge_from_list_inv {c c1 : Collection} {L : List NarrativeObject}
    {rm : Bool} {now : Nat} {s : MergeStats}
    (h : merge_from_list c L rm now = some (c1, s))
    (hc : ∀ p ∈ c, TimestampInv p.2 ∧ p.2.first_seen ≤ now)
    (hL : ∀ o ∈ L, TimestampInv o ∧ o.first_seen ≤ now) :
    ∀ p ∈ c1, TimestampInv p.2 := by
  cases hm : mergeLoop c L (c.map (fun q => q.1)) now with
  | none =>
      rw [merge_from_list] at h
      rw [hm] at h
      exact Option.noConfusion h
  | some r =>
      obtain ⟨cmid, a, u, un⟩ := r
      have hmid := mergeLoop_inv L hm hc hL
      cases rm with
      | false =>
          have heq : merge_from_list c L false now = some (cmid, ⟨a, u, un, 0⟩) :=
            merge_from_list_false_eq hm
          rw [heq] at h
          have hcc : c1 = cmid := (congrArg Prod.fst (Option.some.inj h)).symm
          subst hcc
          exact fun p hp => (hmid p hp).1
      | true =>
          have h2 : some
              ((((c.map (fun q => q.1)).filter
                  (fun n => !((L.map (fun o => o.name)).contains n))).foldl
                (fun (acc : Collection × Nat) n =>
                  let step := removeObj acc.1 n
                  (step.1, if step.2 then acc.2 + 1 else acc.2)) (cmid, 0)).1,
              (⟨a, u, un,
                (((c.map (fun q => q.1)).filter
                  (fun n => !((L.map (fun o => o.name)).contains n))).foldl
                (fun (acc : Collection × Nat) n =>
                  let step := removeObj acc.1 n
                  (step.1, if step.2 then acc.2 + 1 else acc.2)) (cmid, 0)).2⟩ :
                MergeStats)) = some (c1, s) := by
            rw [← h]
            simp only [merge_from_list, hm]
            rw [if_pos trivial]
          have hcc : c1 = (((c.map (fun q => q.1)).filter
              (fun n => !((L.map (fun o => o.name)).contains n))).foldl
              (fun (acc : Collection × Nat) n =>
                let step := removeObj acc.1 n
                (step.1, if step.2 then acc.2 + 1 else acc.2)) (cmid, 0)).1 :=
            (congrArg Prod.fst (Option.some.inj h2)).symm
          intro p hp
          rw [hcc] at hp
          exact (hmid p (removeFold_mem _ cmid 0 p hp)).1

/-- C5 (amended): `first_seen <= last_updated` holds for entities created
fresh, updated in place or merged under a non-decreasing clock, and for
entities reconstructed from a snapshot in which `first_seen` accompanies any
present `last_updated` (the shape `to_dict` always writes) with persisted
values that respect the invariant and do not postdate the load. -/
theorem timestamp_invariant_amended :
    (∀ (name description : String) (rels : List Relationship) (now : Nat),
      TimestampInv (NarrativeObject.create name description rels now)) ∧
    (∀ (self other upd : NarrativeObject) (ch : Bool) (now : Nat),
      TimestampInv self → self.first_seen ≤ now →
      self.update_from other now = some (upd, ch) → TimestampInv upd) ∧
    (∀ (c c1 : Collection) (L : List NarrativeObject) (rm : Bool)
        (now : Nat) (s : MergeStats),
      merge_from_list c L rm now = some (c1, s) →
      (∀ p ∈ c, TimestampInv p.2 ∧ p.2.first_seen ≤ now) →
      (∀ o ∈ L, TimestampInv o ∧ o.first_seen ≤ now) →
      ∀ p ∈ c1, TimestampInv p.2) ∧
    (∀ (data : ObjectData) (loadTime : Nat),
      (∀ lu, data.last_updated = some lu →
        ∃ fs, data.first_seen = some fs ∧ fs ≤ lu) →
      (∀ fs, data.first_seen = some fs → fs ≤ loadTime) →
      TimestampInv (NarrativeObject.from_dict data loadTime)) := by
  refine ⟨?_, ?_, ?_, ?_⟩
  · intro name description rels now
    exact le_refl now
  · intro self other upd ch now h1 h2 h
    exact (update_from_inv h h1 h2).1
  · intro c c1 L rm now s h hc hL
    exact merge_from_list_inv h hc hL
  · intro data loadTime hboth hload
    rw [NarrativeObject.from_dict]
    cases hlu : data.last_updated with
    | some lu =>
        obtain ⟨fs, hfs, hfslu⟩ := hboth lu hlu
        rw [hfs]
        exact hfslu
    | none =>
        cases hfs : data.first_seen with
        | some fs => exact hload fs hfs
        | none => exact le_refl loadTime

/-- Witness for C5 applying every conjunct at concrete inputs. -/
theorem timestamp_invariant_amended_witness :
    TimestampInv (NarrativeObject.create "A" "d" [] 3) ∧
    TimestampInv (⟨"A", "d2", [], 1, 4⟩ : NarrativeObject) ∧
    (∀ p ∈ ([("A", ⟨"A", "e", [], 1, 4⟩)] : Collection), TimestampInv p.2) ∧
    TimestampInv (NarrativeObject.from_dict ⟨"A", "b", [], some 2, some 3⟩ 5) := by
  refine ⟨timestamp_invariant_amended.1 "A" "d" [] 3, ?_, ?_, ?_⟩
  · exact timestamp_invariant_amended.2.1 ⟨"A", "d", [], 1, 2⟩
      ⟨"A", "d2", [], 9, 9⟩ ⟨"A", "d2", [], 1, 4⟩ true 4 (by decide) (by decide)
      (by decide)
  · exact timestamp_invariant_amended.2.2.1 [("A", ⟨"A", "x", [], 1, 2⟩)]
      [("A", ⟨"A", "e", [], 1, 4⟩)] [⟨"A", "e", [], 2, 3⟩] false 4 ⟨0, 1, 0, 0⟩
      (by decide) (by decide) (by decide)
  · exact timestamp_invariant_amended.2.2.2 ⟨"A", "b", [], some 2, some 3⟩ 5
      (fun lu hlu => ⟨2, rfl, by simp at hlu; omega⟩)
      (fun fs hfs => by simp at hfs; omega)

/-- C5 counterexample: reconstructing an entity from a snapshot that has
`last_updated` but no `first_seen` sets `first_seen` to the load time and
keeps the persisted `last_updated`, violating `first_seen <= last_updated`
whenever the persisted value predates the load. -/
theorem from_dict_violates_timestamp_invariant :
    ¬ ((NarrativeObject.from_dict luOnlyData 1).first_seen ≤
        (NarrativeObject.from_dict luOnlyData 1).last_updated) := by
  decide

/-- C8 counterexample: merging a list with two same-named entities twice
gives second-pass stats `updated = 2`, not `added=0, updated=0,
unchanged=2` as claimed. -/
theorem remerge_not_idempotent_on_duplicates :
    merge_from_list [] dupNameList false 1 =
      some ([("A", ⟨"A", "y", [], 0, 1⟩)], ⟨2, 0, 0, 0⟩) ∧
    merge_from_list [("A", ⟨"A", "y", [], 0, 1⟩)] dupNameList false 2 =
      some ([("A", ⟨"A", "y", [], 0, 2⟩)], ⟨0, 2, 0, 0⟩) ∧
    (MergeStats.mk 0 2 0 0 ≠ ⟨0, 0, 2, 0⟩) := by
  refine ⟨rfl, rfl, by decide⟩

theorem mapExcept_ok {α β : Type} {f : α → Except Unit β} {g : α → β} :
    ∀ {l : List α}, (∀ x ∈ l, f x = .ok (g x)) →
    mapExcept f l = .ok (l.map g) := by
  intro l
  induction l with
  | nil => intro _; rfl
  | cons x xs ih =>
      intro h
      rw [mapExcept, h x (List.mem_cons_self _ _),
        ih (fun y hy => h y (List.mem_cons_of_mem _ hy))]
      rfl

theorem getStrItem_of_validStrField {f : List (String × PyVal)} {k : String}
    {n : Nat} (h : validStrField (dictGet f k) n = true) :
    getStrItem (.dict f) k = .ok (objStrField (.dict f) k) := by
  simp only [getStrItem, objStrField]
  cases hg : dictGet f k with
  | none => rw [hg] at h; simp [validStrField] at h
  | some v =>
      rw [hg] at h
      cases v <;> simp_all [validStrField]

theorem convertRelationship_valid {r : PyVal}
    (h : validRelationship r = true) :
    convertRelationship r =
      .ok ⟨objStrField r "target", objStrField r "description"⟩ := by
  cases r with
  | dict f =>
      rw [validRelationship, Bool.and_eq_true] at h
      rw [convertRelationship, getStrItem_of_validStrField h.1,
        getStrItem_of_validStrField h.2]
      rfl
  | str s => simp [validRelationship] at h
  | int n => simp [validRelationship] at h
  | bool b => simp [validRelationship] at h
  | null => simp [validRelationship] at h
  | list xs => simp [validRelationship] at h

theorem convertObject_valid {o : PyVal} (now : Nat)
    (h : validObject o = true) :
    convertObject o now = .ok (entityOfObj now o) := by
  cases o with
  | dict f =>
      rw [validObject, Bool.and_eq_true, Bool.and_eq_true] at h
      obtain ⟨⟨hname, hdesc⟩, hrels⟩ := h
      cases hg : dictGet f "relationships" with
      | none =>
          simp only [convertObject, hg, getStrItem_of_validStrField hname,
            getStrItem_of_validStrField hdesc]
          simp only [entityOfObj, NarrativeObject.create, objRelPairs, hg]
          rfl
      | some v =>
          rw [hg] at hrels
          cases v with
          | list rs =>
              rw [List.all_eq_true] at hrels
              have hmap := mapExcept_ok
                (fun r hr => convertRelationship_valid (hrels r hr))
              simp only [convertObject, hg, hmap,
                getStrItem_of_validStrField hname,
                getStrItem_of_validStrField hdesc]
              simp only [entityOfObj, NarrativeObject.create, objRelPairs, hg]
              rfl
          | str s => simp at hrels
          | int n => simp at hrels
          | bool b => simp at hrels
          | null => simp at hrels
          | dict g => simp at hrels
  | str s => simp [validObject] at h
  | int n => simp [validObject] at h
  | bool b => simp [validObject] at h
  | null => simp [validObject] at h
  | list xs => simp [validObject] at h

theorem convertToObjects_valid {d : PyVal} (now : Nat)
    (h : validateResponse d = true) :
    convertToObjects d now =
      .ok ((payloadObjList d).map (entityOfObj now)) := by
  cases d with
  | dict f =>
      rw [validateResponse] at h
      rw [convertToObjects, payloadObjList]
      cases hg : dictGet f "objects" with
      | none => rw [hg] at h; exact absurd h (by simp)
      | some v =>
          rw [hg] at h
          cases v with
          | list objs =>
              rw [List.all_eq_true] at h
              exact mapExcept_ok (fun o ho => convertObject_valid now (h o ho))
          | str s => simp at h
          | int n => simp at h
          | bool b => simp at h
          | null => simp at h
          | dict g => simp at h
  | str s => simp [validateResponse] at h
  | int n => simp [validateResponse] at h
  | bool b => simp [validateResponse] at h
  | null => simp [validateResponse] at h
  | list xs => simp [validateResponse] at h

/-- C4 (amended): a schema-conforming payload converts to entities whose
fields are verbatim the payload's strings (no object lost or altered at the
conversion stage), and the full parse of its serialized text returns a
sublist of that verbatim conversion — objects can only be lost (to the
placeholder check or the quality filter), never altered. -/
theorem parse_roundtrip_amended (d : PyVal) (now : Nat)
    (h : validateResponse d = true) :
    convertToObjects d now =
      .ok ((payloadObjList d).map (entityOfObj now)) ∧
    ∃ out, parseSerializedPayload d now = .ok out ∧
      List.Sublist out ((payloadObjList d).map (entityOfObj now)) := by
  have hconv := convertToObjects_valid now h
  refine ⟨hconv, ?_⟩
  simp only [parseSerializedPayload]
  by_cases h1 : pyTrim (serializePyVal d) = ""
  · exact ⟨[], by rw [if_pos h1], List.nil_sublist _⟩
  · rw [if_neg h1]
    by_cases h2 :
        isPlaceholderResponse (cleanResponseText (serializePyVal d)) = true
    · exact ⟨[], by rw [if_pos h2], List.nil_sublist _⟩
    · rw [if_neg h2, if_pos h]
      refine ⟨filterQualityObjects
          ((payloadObjList d).map (entityOfObj now)), ?_, ?_⟩
      · simp only [pure_bind, hconv]
        rfl
      · exact List.filter_sublist _

/-- Witness for C4 at a concrete conforming payload whose object survives
the quality filter. -/
theorem parse_roundtrip_amended_witness :
    convertToObjects scientistPayload 0 =
      .ok ((payloadObjList scientistPayload).map (entityOfObj 0)) ∧
    ∃ out, parseSerializedPayload scientistPayload 0 = .ok out ∧
      List.Sublist out ((payloadObjList scientistPayload).map (entityOfObj 0)) :=
  parse_roundtrip_amended scientistPayload 0 rfl

/-- C4 counterexample: `shortDescPayload` conforms to the schema, converts
verbatim to one entity, yet the full parse pipeline returns no entities —
the quality filter drops the object (description shorter than 5
characters), so "no object is lost" fails. -/
theorem roundtrip_loses_valid_object :
    validateResponse shortDescPayload = true ∧
    convertToObjects shortDescPayload 0 = .ok [⟨"Alice", "Hi", [], 0, 0⟩] ∧
    parseSerializedPayload shortDescPayload 0 = .ok [] := by
  refine ⟨rfl, rfl, rfl⟩

theorem lookupObj_eraseP_ne {c : Collection} {old k : String} (h : k ≠ old) :
    lookupObj (c.eraseP (fun p => p.1 == old)) k = lookupObj c k := by
  induction c with
  | nil => rfl
  | cons q t ih =>
      by_cases hp : (q.1 == old) = true
      · rw [@List.eraseP_cons_of_pos _ q t (fun r => r.1 == old) hp,
          lookupObj_cons,
          if_neg (by
            have : q.1 = old := by simpa using hp
            simp [this, Ne.symm h])]
      · rw [@List.eraseP_cons_of_neg _ q t (fun r => r.1 == old) hp,
          lookupObj_cons, lookupObj_cons, ih]

theorem wf_eraseP {c : Collection} {old : String} (hwf : CollWF c) :
    CollWF (c.eraseP (fun p => p.1 == old)) := by
  have hsub : List.Sublist (c.eraseP (fun p => p.1 == old)) c :=
    List.eraseP_sublist c
  constructor
  · exact (hsub.map (fun p => p.1)).nodup hwf.1
  · intro p hp
    exact hwf.2 p (hsub.subset hp)

/-- C6: a successful single-entity replace changes at most the entry named
`old_name`: every name different from both `old_name` and the replacement's
name resolves to exactly the same stored entity (same description,
relationships and timestamps) as before. -/
theorem replace_changes_only_target (c : Collection) (old_name : String)
    (new_object : NarrativeObject) (now : Nat) (hwf : CollWF c)
    (hold : containsName c old_name = true) :
    ∃ c' r, replace_object c old_name new_object now = some (c', r) ∧
      r.success = true ∧
      ∀ k, k ≠ old_name → k ≠ new_object.name →
        lookupObj c' k = lookupObj c k := by
  have hc1 : (removeObj c old_name).1 = c.eraseP (fun p => p.1 == old_name) := by
    rw [removeObj, if_pos hold]
  have hwf1 : CollWF (removeObj c old_name).1 := by
    rw [hc1]; exact wf_eraseP hwf
  obtain ⟨c2, ch, heq2, -, -, -, hframe2, -⟩ :=
    add_or_update_spec new_object now hwf1
  refine ⟨c2, ⟨true, none, c2.length, ⟨0, 1, 0, 0⟩⟩, ?_, rfl, ?_⟩
  · rw [replace_object, if_neg (by simp [hold])]
    simp only [heq2]
  · intro k hk1 hk2
    rw [hframe2 k hk2, hc1, lookupObj_eraseP_ne hk1]

/-- Witness for C6: replacing the sole entry of a two-entry collection
leaves the other entry's binding untouched. -/
theorem replace_changes_only_target_witness :
    ∃ c' r,
      replace_object [("A", ⟨"A", "x", [], 0, 0⟩), ("B", ⟨"B", "y", [], 0, 0⟩)]
          "A" ⟨"C", "z", [], 1, 1⟩ 2 = some (c', r) ∧
      r.success = true ∧
      ∀ k, k ≠ "A" → k ≠ "C" →
        lookupObj c' k =
          lookupObj [("A", ⟨"A", "x", [], 0, 0⟩), ("B", ⟨"B", "y", [], 0, 0⟩)] k :=
  replace_changes_only_target
    [("A", ⟨"A", "x", [], 0, 0⟩), ("B", ⟨"B", "y", [], 0, 0⟩)]
    "A" ⟨"C", "z", [], 1, 1⟩ 2
    (by constructor
        · simp
        · intro p hp
          rcases List.mem_cons.mp hp with hp | hp
          · rw [hp]
          · rw [List.mem_singleton] at hp
            rw [hp])
    (by decide)

/-- C9: the relationship-integrity filter removes exactly the relationships
whose target is no entity name of the list: the output is pointwise the
input with each entity's relationships restricted to targets in the name
set (membership characterised exactly, so everything with a live target —
including a self-reference — is kept, and everything else is dropped),
leaving name, description and timestamps untouched. -/
theorem validate_relationships_exact (objs : List NarrativeObject) :
    List.Forall₂ (fun o o2 =>
        o2.name = o.name ∧ o2.description = o.description ∧
        o2.first_seen = o.first_seen ∧ o2.last_updated = o.last_updated ∧
        (∀ r, r ∈ o2.relationships ↔
          (r ∈ o.relationships ∧ ∃ q ∈ objs, q.name = r.target)) ∧
        (∀ r ∈ o.relationships, r.target = o.name → r ∈ o2.relationships))
      objs (validateRelationships objs) := by
  rw [validateRelationships, List.forall₂_map_right_iff, List.forall₂_same]
  intro o ho
  refine ⟨rfl, rfl, rfl, rfl, ?_, ?_⟩
  · intro r
    rw [List.mem_filter]
    constructor
    · rintro ⟨hr, hc⟩
      refine ⟨hr, ?_⟩
      have : r.target ∈ objs.map (fun x => x.name) := List.elem_iff.mp hc
      rw [List.mem_map] at this
      obtain ⟨q, hq, hqt⟩ := this
      exact ⟨q, hq, hqt⟩
    · rintro ⟨hr, q, hq, hqt⟩
      refine ⟨hr, ?_⟩
      exact List.elem_iff.mpr (List.mem_map.mpr ⟨q, hq, hqt⟩)
  · intro r hr htarget
    rw [List.mem_filter]
    refine ⟨hr, ?_⟩
    exact List.elem_iff.mpr
      (List.mem_map.mpr ⟨o, ho, by rw [htarget]⟩)

/-- C7: a replace request for a name absent from the collection returns a
failure result carrying the not-found error message, and the collection is
returned completely unchanged. -/
theorem replace_absent_name_fails_unchanged
    (c : Collection) (old_name : String) (new_object : NarrativeObject)
    (now : Nat) (h : containsName c old_name = false) :
    replace_object c old_name new_object now =
      some (c, ⟨false,
                some ("Object " ++ sq ++ old_name ++ sq ++ " not found"),
                c.length, ⟨0, 0, 0, 0⟩⟩) := by
  simp [replace_object, h]

/-- Witness for C7 at a concrete collection and name. -/
theorem replace_absent_name_fails_unchanged_witness :
    replace_object [("B", ⟨"B", "d", [], 0, 0⟩)] "X" ⟨"N", "e", [], 1, 1⟩ 2 =
      some ([("B", ⟨"B", "d", [], 0, 0⟩)],
            ⟨false, some ("Object " ++ sq ++ "X" ++ sq ++ " not found"),
             1, ⟨0, 0, 0, 0⟩⟩) :=
  replace_absent_name_fails_unchanged
    [("B", ⟨"B", "d", [], 0, 0⟩)] "X" ⟨"N", "e", [], 1, 1⟩ 2 (by decide)

end Literate
